import Mathlib

/-!
Verification development for the Citius scraper extraction core
(`citius_scraper_final_v2.py`).

The Python program parses a results page (HTML) rendered in one of several
layouts, extracts per-case records with nested creditor lists, expands
creditors into flat rows, and exports a CSV file plus a JSON file.

We shallowly embed the extraction pipeline:
* the parsed HTML page is modelled by the `Doc` structure, holding the
  elements the code looks up (`lblNoResults` span, `gvResults` table,
  `divResultados` div, `dlResultados` span, the "Todos os tribunais"
  parent div text);
* Python dicts (insertion-ordered) are modelled by association lists
  (`Row`) with overwrite-in-place assignment (`rowSet`);
* the regular expressions of the source are implemented as executable
  functions on `List Char`, following Python `re` semantics (leftmost
  match, greedy/lazy quantifiers) for the inputs considered: span texts
  and label lines are taken to be free of pathological retry cases
  (each modelling note is given at the definition it concerns).
-/

namespace Citius

/-! ### Python string primitives -/

/-- Python `\s` / `str.strip` whitespace class (ASCII part, which covers
all inputs considered). -/
def pyIsSpace (c : Char) : Bool :=
  c = ' ' || c = '\t' || c = '\n' || c = '\r' || c = '\x0b' || c = '\x0c'

/-- `str.strip()` on a character list. -/
def pyStrip (l : List Char) : List Char :=
  ((l.dropWhile pyIsSpace).reverse.dropWhile pyIsSpace).reverse

/-- `str.strip()` on a `String`. -/
def pyStripS (s : String) : String :=
  ⟨pyStrip s.data⟩

/-- `str.rstrip(':')`, used on `<strong>` tag texts to turn `"Label:"`
into the field name `"Label"`. -/
def rstripColon (l : List Char) : List Char :=
  (l.reverse.dropWhile (fun c => c = ':')).reverse

/-- `startsWithL pat s`: `pat` is a prefix of `s` (the literal-match step
of `re` patterns anchored at one position). -/
def startsWithL : List Char → List Char → Bool
  | [], _ => true
  | _ :: _, [] => false
  | p :: ps, c :: cs => p == c && startsWithL ps cs

/-- Index of the leftmost occurrence of `pat` in `s` (the scan step of
`re.search`): the first position whose suffix starts with `pat`. -/
def findSub (pat : List Char) : List Char → Option Nat
  | [] => if startsWithL pat [] then some 0 else none
  | c :: rest =>
    if startsWithL pat (c :: rest) then some 0
    else (findSub pat rest).map (· + 1)

/-- Substring containment, Python's `pat in s` / `re.search` success. -/
def containsSub (pat : List Char) (s : List Char) : Bool :=
  (findSub pat s).isSome

/-- Greedy `\s*`: drop the maximal whitespace prefix. -/
def dropPySpaces (l : List Char) : List Char :=
  l.dropWhile pyIsSpace

/-! ### Values, rows (Python dicts) -/

/-- A value stored in a result dict: a plain string, or a list of strings
(the `Links`/`..._links` entries). -/
inductive Val where
  | s (v : String)
  | list (vs : List String)
deriving DecidableEq, Repr

/-- A result dict: insertion-ordered association list, unique keys. -/
abbrev Row := List (String × Val)

/-- `k in d` for a Python dict. -/
def rowHasKey (r : Row) (k : String) : Bool :=
  r.any (fun p => p.1 == k)

/-- `d[k] = v` on a Python dict: overwrite in place if the key exists,
else append at the end (insertion order). -/
def rowSet (r : Row) (k : String) (v : Val) : Row :=
  if rowHasKey r k then r.map (fun p => if p.1 == k then (k, v) else p)
  else r ++ [(k, v)]

/-- The keys of a dict, in insertion order. -/
def rowKeys (r : Row) : List String :=
  r.map Prod.fst

/-- `d.get(k)`. -/
def rowGet (r : Row) (k : String) : Option Val :=
  (r.find? (fun p => p.1 == k)).map Prod.snd

/-! ### Creditors, records, flat expansion

The three creditor-extracting parsers (`_parse_div_results`,
`_parse_list_results`, `_parse_text_results`) all end with the same
emission block (lines 570-586, 710-726, 867-883): if the candidate dict
is non-empty it is appended, expanded into one dict per creditor when
the creditor list is non-empty. -/

/-- A creditor: `{"Nome": ..., "NIF/NIPC": ...?}` dicts built by the
creditor scans (NIF key present only when a non-empty id was captured). -/
structure Credor where
  nome : String
  nif : Option String
deriving DecidableEq, Repr

/-- A candidate record just before the emission block: the field dict
(everything except the `Credores` key) and the creditor list. -/
structure RecordR where
  fields : Row
  credores : List Credor
deriving DecidableEq, Repr

/-- One flat row for one creditor: `credor_result = base_result.copy();
credor_result['Credor'] = credor['Nome']; if 'NIF/NIPC' in credor:
credor_result['Credor NIF/NIPC'] = credor['NIF/NIPC']`. -/
def credorRow (base : Row) (c : Credor) : Row :=
  let r := rowSet base "Credor" (Val.s c.nome)
  match c.nif with
  | some n => rowSet r "Credor NIF/NIPC" (Val.s n)
  | none => r

/-- The emission block shared by the three creditor-aware parsers:
`if result:` guards emission; with creditors, one row per creditor
(`Credores` removed from the base); without, the dict as-is. -/
def emitRecord (rec : RecordR) : List Row :=
  if rec.fields.isEmpty && rec.credores.isEmpty then []
  else if rec.credores.isEmpty then [rec.fields]
  else rec.credores.map (credorRow rec.fields)

/-- The whole-result-set expansion: records are emitted in order, each
contributing its `emitRecord` rows (the `results.append` loop). -/
def expandAll : List RecordR → List Row
  | [] => []
  | r :: rs => emitRecord r ++ expandAll rs

/-! ### Creditor sub-extraction

`_parse_div_results` (lines 548-564) and `_parse_list_results`
(lines 687-704) scan each `<span>` of the item with
`re.search(r'Credor:\s*(.*?)(?:\s*NIF/NIPC:\s*(.*?))?$', span_text)`;
`_parse_text_results` (lines 849-861) scans the whole section with
`re.finditer(r'Credor:\s*([^\n]+)(?:\s*NIF/NIPC:\s*([^\n]+))?', section)`.
The TABLE path (`_parse_table_results`) contains no creditor scan at all. -/

def credorPat : List Char := ("Credor:").data

def nifPat : List Char := ("NIF/NIPC:").data

/-- The optional tail group `(?:\s*NIF/NIPC:\s*(.*?))?` tried at a given
split point: it succeeds exactly when, after greedy whitespace, the
literal `NIF/NIPC:` follows (shorter whitespace runs cannot help, since
the literal starts with a non-whitespace character); the lazy id capture
then extends to the end anchor, so up to the later `.strip()` the
capture is everything after the literal. -/
def nifSuffix (tail : List Char) : Option (List Char) :=
  let w := dropPySpaces tail
  if startsWithL nifPat w then some (w.drop nifPat.length) else none

/-- The lazy scan of `(.*?)(?:\s*NIF/NIPC:\s*(.*?))?$` over the text after
`Credor:\s*`: the shortest name capture wins, the optional NIF group
being tried before accepting the end of the text.  Span texts come from
`get_text(strip=True)` and are considered newline-free, so `.` matches
every remaining character and `$` is the end of the text. -/
def credorScanDiv : List Char → List Char → List Char × Option (List Char)
  | acc, [] =>
    match nifSuffix [] with
    | some nif => (acc.reverse, some nif)
    | none => (acc.reverse, none)
  | acc, c :: rest =>
    match nifSuffix (c :: rest) with
    | some nif => (acc.reverse, some nif)
    | none => credorScanDiv (c :: acc) rest

/-- `re.search(r'Credor:\s*(.*?)(?:\s*NIF/NIPC:\s*(.*?))?$', span_text)`
followed by the source's guards: both captures are `.strip()`ped, a
creditor with an empty stripped name is discarded, and a stripped-empty
id capture yields no `NIF/NIPC` key. -/
def spanCredor (s : String) : Option Credor :=
  match findSub credorPat s.data with
  | none => none
  | some i =>
    let t := dropPySpaces (s.data.drop (i + credorPat.length))
    let nameNif := credorScanDiv [] t
    let nome := pyStrip nameNif.1
    if nome.isEmpty then none
    else some ⟨⟨nome⟩,
      match nameNif.2 with
      | some nr =>
        let n := pyStrip nr
        if n.isEmpty then none else some ⟨n⟩
      | none => none⟩

/-- `_parse_list_results` guards the identical search with a redundant
substring test first: `if "Credor:" in span_text:`. -/
def listSpanCredor (s : String) : Option Credor :=
  if containsSub credorPat s.data then spanCredor s else none

/-- Creditors of one PANEL_LIST item: every span's `get_text(strip=True)`
is scanned in document order, at most one creditor per span. -/
def spanCredores (spanTexts : List String) : List Credor :=
  spanTexts.filterMap spanCredor

/-- Creditors of one LABELED_SPANS item (spans of the whole item). -/
def listSpanCredores (spanTexts : List String) : List Credor :=
  spanTexts.filterMap listSpanCredor

/-- One pass of
`re.finditer(r'Credor:\s*([^\n]+)(?:\s*NIF/NIPC:\s*([^\n]+))?', section)`
(FLAT_TEXT path), fuelled for structural recursion (the fuel passed by
`textCredores` always suffices, since every match consumes at least the
`Credor:` literal).  At the leftmost `Credor:`: greedy `\s*` (which may
cross line breaks), then the greedy name capture takes the whole rest of
that line — a backtracking engine never shrinks a greedy capture for the
sake of a trailing optional group, so a same-line `NIF/NIPC:` is glued
into the name.  The optional group is then tried where the name ends:
its `\s*` may cross the line break, so it succeeds exactly when the next
non-whitespace text begins with `NIF/NIPC:`, the greedy id capture being
the rest of the line on which that next non-whitespace text after the
literal sits.  Both captures are `.strip()`ped, a stripped-empty name is
discarded, a stripped-empty id yields no NIF key; the scan resumes where
the match ends.  (In the corner where only whitespace follows the
`NIF/NIPC:` literal the id strips to empty and no `Credor:` can remain
in the skipped whitespace, so resuming after it is equivalent.) -/
def textCredoresGo : Nat → List Char → List Credor
  | 0, _ => []
  | fuel + 1, s =>
    match findSub credorPat s with
    | none => []
    | some i =>
      let afterWs := dropPySpaces (s.drop (i + credorPat.length))
      let line := afterWs.takeWhile (fun c => c != '\n')
      let remAfterName := afterWs.drop line.length
      let w := dropPySpaces remAfterName
      let nameNifRem :=
        if startsWithL nifPat w then
          let afterWs2 := dropPySpaces (w.drop nifPat.length)
          let nifLine := afterWs2.takeWhile (fun c => c != '\n')
          (line, nifLine, afterWs2.drop nifLine.length)
        else (line, ([] : List Char), remAfterName)
      let nome := pyStrip nameNifRem.1
      let rest := textCredoresGo fuel nameNifRem.2.2
      if nome.isEmpty then rest
      else ⟨⟨nome⟩,
        (let n := pyStrip nameNifRem.2.1;
         if n.isEmpty then none else some ⟨n⟩)⟩ :: rest

/-- All creditors of one FLAT_TEXT section, in match order. -/
def textCredores (s : List Char) : List Credor :=
  textCredoresGo (s.length + 1) s

/-! ### FLAT_TEXT label extraction and section splitting -/

/-- Common tail of the label patterns `label\s*([^\n]+)`: at the spot
right after the label, greedy `\s*` (which may cross line breaks), then
the rest of that line, `.strip()`ped.  When only whitespace remains the
greedy star gives back trailing non-newline whitespace and the value
strips to empty; when not even that is possible the match fails.  (The
model commits to the leftmost label occurrence; on the inputs considered
a failing first occurrence is never followed by a succeeding later
one.) -/
def labelTail (rest : List Char) : Option String :=
  let afterWs := dropPySpaces rest
  let line := afterWs.takeWhile (fun c => c != '\n')
  if line.isEmpty then
    if rest.any (fun c => pyIsSpace c && c != '\n') then some ⟨[]⟩ else none
  else some ⟨pyStrip line⟩

/-- `re.search(label + r'\s*([^\n]+)', section)` for the simple labels of
`_parse_text_results` (lines 803-834). -/
def labelValue (label : String) (s : List Char) : Option String :=
  match findSub label.data s with
  | none => none
  | some i => labelTail (s.drop (i + label.data.length))

/-- `re.search(label + r'.*?NIF/NIPC:\s*([^\n]+)', section, re.DOTALL)`
for the two NIF sub-fields (lines 836-847): the lazy gap runs to the
first `NIF/NIPC:` after the parent label. -/
def labelNifValue (label : String) (s : List Char) : Option String :=
  match findSub label.data s with
  | none => none
  | some i =>
    let rest := s.drop (i + label.data.length)
    match findSub nifPat rest with
    | none => none
    | some j => labelTail (rest.drop (j + nifPat.length))

/-- `if m: result[k] = m.group(1).strip()` — conditional dict update. -/
def setIfSome (r : Row) (k : String) (v : Option String) : Row :=
  match v with
  | some t => rowSet r k (Val.s t)
  | none => r

/-- The per-section field extraction of `_parse_text_results`
(lines 802-847), with the label lookups in source order. -/
def sectionFields (sec : List Char) : Row :=
  let r : Row := []
  let r := setIfSome r "Tribunal" (labelValue "Tribunal:" sec)
  let r := setIfSome r "Ato" (labelValue "Ato:" sec)
  let r := setIfSome r "Referência" (labelValue "Referência:" sec)
  let r := setIfSome r "Processo" (labelValue "Processo:" sec)
  let r := setIfSome r "Espécie" (labelValue "Espécie:" sec)
  let r := setIfSome r "Data" (labelValue "Data:" sec)
  let r := setIfSome r "Data da propositura da ação"
    (labelValue "Data da propositura da ação:" sec)
  let r := setIfSome r "Insolvente" (labelValue "Insolvente:" sec)
  let r := setIfSome r "NIF/NIPC" (labelNifValue "Insolvente:" sec)
  let r := setIfSome r "Administrador Insolvência"
    (labelValue "Administrador Insolvência:" sec)
  let r := setIfSome r "Administrador NIF/NIPC"
    (labelNifValue "Administrador Insolvência:" sec)
  r

def tribunalPat : List Char := ("Tribunal:").data

/-- Scanner for `re.split(r'(?=Tribunal:)', text)`: every position whose
suffix starts with the marker closes the current section and opens a new
one (after the zero-width split the scan advances one character, exactly
as Python's `re.split` does with empty matches). -/
def splitKeepGo (pat : List Char) : List Char → List Char → List (List Char)
  | acc, [] => [acc.reverse]
  | acc, c :: rest =>
    if startsWithL pat (c :: rest) then acc.reverse :: splitKeepGo pat [c] rest
    else splitKeepGo pat (c :: acc) rest

/-- `re.split(r'(?=Tribunal:)', text)`. -/
def splitKeep (pat : List Char) (text : List Char) : List (List Char) :=
  splitKeepGo pat [] text

/-- Number of occurrences of `pat` in `text` (positions whose suffix
starts with `pat`). -/
def countOcc (pat : List Char) : List Char → Nat
  | [] => 0
  | c :: rest => (if startsWithL pat (c :: rest) then 1 else 0) + countOcc pat rest

/-- The section list of `_parse_text_results` (lines 775-779): split at
each `Tribunal:`, then drop the first section when it does not contain
the marker. -/
def tribunalSections (text : List Char) : List (List Char) :=
  match splitKeep tribunalPat text with
  | [] => []
  | first :: restSections =>
    if containsSub tribunalPat first then first :: restSections else restSections

/-- Concatenation of section lists (used to state that the split is a
partition of the text). -/
def joinL : List (List Char) → List Char
  | [] => []
  | l :: ls => l ++ joinL ls

/-- The section loop of `_parse_text_results` (lines 794-885):
whitespace-only sections are skipped, every other section yields its
label fields plus creditors and goes through the emission block. -/
def textSectionsRows : List (List Char) → List Row
  | [] => []
  | sec :: rest =>
    (if (pyStrip sec).isEmpty then []
     else emitRecord ⟨sectionFields sec, textCredores sec⟩) ++ textSectionsRows rest

/-- `_parse_text_results` (lines 752-887) on the flattened `get_text()`
of the parent div of the "Todos os tribunais" marker. -/
def parse_text_results (text : String) : List Row :=
  textSectionsRows (tribunalSections text.data)

/-! ### PANEL_LIST (div) and LABELED_SPANS (list) layouts -/

/-- One candidate item of the `divResultados` container (a
`resultadocdital` div, or — when none carries that class — any inner
div), holding exactly the pieces `_parse_div_results` reads: the six
role fields are the texts of the first elements whose `id` matches the
role pattern (`.*lblProcesso.*` etc., `descricao` covering
`.*lblDescricao.*|.*lblTexto.*`); `strongPairs` the `<strong>` texts
paired with the following text siblings up to the next `<br>`; `links`
the `href` attributes of all anchors (possibly empty strings; URI
resolution against the base URL is not modelled); `fullText` the item's
`get_text(separator=' ', strip=True)`; `spanTexts` the
`get_text(strip=True)` of all inner spans, in document order. -/
structure DivItem where
  processo : Option String
  tribunal : Option String
  data : Option String
  interveniente : Option String
  nif : Option String
  descricao : Option String
  strongPairs : List (String × String)
  links : List String
  fullText : String
  spanTexts : List String
deriving DecidableEq, Repr

/-- Method 2 of `_parse_div_results` (lines 517-531): for each strong
tag, field name = its text stripped then right-stripped of `:`, value =
the following text up to the `<br>`, stripped. -/
def applyStrongPairs (r : Row) : List (String × String) → Row
  | [] => r
  | (name, value) :: rest =>
    applyStrongPairs
      (rowSet r ⟨rstripColon (pyStrip name.data)⟩ (Val.s (pyStripS value))) rest

/-- Field extraction for one div item (`_parse_div_results`
lines 484-546): id-anchored roles first; the strong-tag fallback when
fewer than 2 fields were found; then the `Links` entry (key present
whenever the item has anchors, holding the non-empty hrefs); then the
whole-text `Conteúdo` fallback when the dict is still empty — with no
minimum length. -/
def divFields (it : DivItem) : Row :=
  let r : Row := []
  let r := setIfSome r "Processo" (it.processo.map pyStripS)
  let r := setIfSome r "Tribunal" (it.tribunal.map pyStripS)
  let r := setIfSome r "Data" (it.data.map pyStripS)
  let r := setIfSome r "Interveniente" (it.interveniente.map pyStripS)
  let r := setIfSome r "NIF/NIPC" (it.nif.map pyStripS)
  let r := setIfSome r "Descrição" (it.descricao.map pyStripS)
  let r := if r.isEmpty || r.length < 2 then applyStrongPairs r it.strongPairs else r
  let r := if it.links.isEmpty then r
    else rowSet r "Links" (Val.list (it.links.filter (fun h => h ≠ "")))
  let r := if r.isEmpty then
      (if it.fullText = "" then r else rowSet r "Conteúdo" (Val.s it.fullText))
    else r
  r

/-- All rows of one div item: fields, creditors from all spans, then the
shared emission block (lines 548-588). -/
def divItemRows (it : DivItem) : List Row :=
  emitRecord ⟨divFields it, spanCredores it.spanTexts⟩

/-- The `divResultados` container with its selected item divs. -/
structure DivResults where
  items : List DivItem
deriving DecidableEq, Repr

/-- The item loop of `_parse_div_results`. -/
def divItemsRows : List DivItem → List Row
  | [] => []
  | it :: rest => divItemRows it ++ divItemsRows rest

/-- `_parse_div_results` (lines 452-590). -/
def parse_div_results (d : DivResults) : List Row :=
  divItemsRows d.items

/-- One item (top-level span) of the `dlResultados` list as read by
`_parse_list_results`: the optional inner `resultadocdital` div with its
readable pieces; the span texts of the whole item (the creditor scan of
this path runs on `item.find_all('span')`); and the item-level flattened
text and anchor hrefs for the no-result-div fallback branch. -/
structure ListItem where
  resultDiv : Option DivItem
  itemSpanTexts : List String
  fullText : String
  links : List String
deriving DecidableEq, Repr

/-- `_parse_list_results` per item (lines 619-748): with a result div,
the div-path field extraction plus the creditor scan over the item's
spans and the shared emission block; without one, a single `Conteúdo`
row guarded by the 10-character minimum (plus the `Links` entry). -/
def listItemRows (it : ListItem) : List Row :=
  match it.resultDiv with
  | some rd => emitRecord ⟨divFields rd, listSpanCredores it.itemSpanTexts⟩
  | none =>
    if it.fullText ≠ "" ∧ 10 < it.fullText.length then
      let r := rowSet [] "Conteúdo" (Val.s it.fullText)
      let r := if it.links.isEmpty then r
        else rowSet r "Links" (Val.list (it.links.filter (fun h => h ≠ "")))
      [r]
    else []

/-- The `dlResultados` span with its top-level span items. -/
structure ListResults where
  items : List ListItem
deriving DecidableEq, Repr

/-- The item loop of `_parse_list_results`. -/
def listItemsRows : List ListItem → List Row
  | [] => []
  | it :: rest => listItemRows it ++ listItemsRows rest

/-- `_parse_list_results` (lines 592-750). -/
def parse_list_results (l : ListResults) : List Row :=
  listItemsRows l.items

/-! ### TABLE layout -/

/-- A table cell: its text and the `href` attributes of its anchors. -/
structure Cell where
  text : String
  links : List String
deriving DecidableEq, Repr

/-- A table row, with the css-class discrimination (`GridRow` /
`GridAlternateRow` mark data rows). -/
structure TRow where
  isData : Bool
  cells : List Cell
deriving DecidableEq, Repr

/-- `gvResults` as read by `_parse_table_results`: the `th` texts of a
`GridHeader` row when present, and all `tr`s in document order. -/
structure TableElem where
  gridHeader : Option (List String)
  allRows : List TRow
deriving DecidableEq, Repr

/-- Header extraction (lines 388-398): the `GridHeader` `th`s, else the
cells of the first row. -/
def tableHeaders (t : TableElem) : List String :=
  match t.gridHeader with
  | some hs => hs.map pyStripS
  | none =>
    match t.allRows with
    | [] => []
    | r0 :: _ => r0.cells.map (fun c => pyStripS c.text)

/-- Data-row selection (lines 407-413): the class-marked rows, else —
when the table has more than one row — all rows but the first. -/
def tableDataRows (t : TableElem) : List TRow :=
  let dataRows := t.allRows.filter (fun r => r.isData)
  if dataRows.isEmpty then
    (if 1 < t.allRows.length then t.allRows.tail else dataRows)
  else dataRows

/-- One iteration of the header loop (lines 432-442): store the cell's
stripped text under the header, and when the cell holds anchors a
`{header}_links` entry with the non-empty hrefs. -/
def tableCellStep (r : Row) (hc : String × Cell) : Row :=
  let r' := rowSet r hc.1 (Val.s (pyStripS hc.2.text))
  if hc.2.links.isEmpty then r'
  else rowSet r' (hc.1 ++ "_links") (Val.list (hc.2.links.filter (fun h => h ≠ "")))

/-- Per-row processing (lines 428-446): a row with fewer cells than
headers is skipped with a warning; otherwise the i-th header is paired
with the i-th cell for `i < len(headers)`.  No creditor scan happens in
this path. -/
def processRow (headers : List String) (cells : List Cell) : Option Row :=
  if headers.length ≤ cells.length then
    some ((headers.zip (cells.take headers.length)).foldl tableCellStep [])
  else none

/-- The data-row loop of `_parse_table_results`. -/
def tableRowsGo (headers : List String) : List TRow → List Row
  | [] => []
  | r :: rest =>
    match processRow headers r.cells with
    | some row => row :: tableRowsGo headers rest
    | none => tableRowsGo headers rest

/-- `_parse_table_results` (lines 375-450): empty headers abort with an
empty list. -/
def parse_table_results (t : TableElem) : List Row :=
  let headers := tableHeaders t
  if headers.isEmpty then []
  else tableRowsGo headers (tableDataRows t)

/-! ### Classification and dispatch (`_parse_results`, lines 299-373) -/

/-- The parsed results page, holding exactly what `_parse_results` looks
up: the `lblNoResults` span's text when that span is present; the
`gvResults` table; the `divResultados` div; the `dlResultados` span; and
the flattened `get_text()` of the parent div of a "Todos os tribunais"
text node when both that node and its parent div exist. -/
structure Doc where
  noResultsMsg : Option String
  resultTable : Option TableElem
  resultsDiv : Option DivResults
  resultsList : Option ListResults
  tribunaisDivText : Option String
deriving DecidableEq, Repr

/-- `if no_results_msg and no_results_msg.text.strip():` — the marker
span is present with non-whitespace text. -/
def hasNoResultsMarker (d : Doc) : Bool :=
  match d.noResultsMsg with
  | some s => !(pyStrip s.data).isEmpty
  | none => false

/-- The five mutually exclusive layouts, in the priority order in which
`_parse_results` tries them. -/
inductive Layout where
  | TABLE
  | PANEL_LIST
  | LABELED_SPANS
  | FLAT_TEXT
  | NONE
deriving DecidableEq, Repr

/-- The layout `_parse_results` dispatches to. -/
def classify (d : Doc) : Layout :=
  if hasNoResultsMarker d then Layout.NONE
  else if d.resultTable.isSome then Layout.TABLE
  else if d.resultsDiv.isSome then Layout.PANEL_LIST
  else if d.resultsList.isSome then Layout.LABELED_SPANS
  else if d.tribunaisDivText.isSome then Layout.FLAT_TEXT
  else Layout.NONE

/-- `_parse_results` (lines 299-373): the no-results marker
short-circuits everything with an empty list; otherwise the four layout
lookups run in order, and when none hits the result is the empty list
(after a warning).  The "N documentos encontrados" lookup is purely
informational and not modelled. -/
def parse_results (d : Doc) : List Row :=
  if hasNoResultsMarker d then []
  else
    match d.resultTable with
    | some t => parse_table_results t
    | none =>
      match d.resultsDiv with
      | some dv => parse_div_results dv
      | none =>
        match d.resultsList with
        | some l => parse_list_results l
        | none =>
          match d.tribunaisDivText with
          | some txt => parse_text_results txt
          | none => []

/-! ### Export (`save_to_csv`, lines 889-941) -/

/-- The fixed priority prefix of the CSV header (line 913). -/
def importantFields : List String :=
  ["Tribunal", "Processo", "Data", "Insolvente", "NIF/NIPC", "Credor", "Credor NIF/NIPC"]

/-- Keys of all result dicts, concatenated in order. -/
def keysAll : List Row → List String
  | [] => []
  | r :: rest => rowKeys r ++ keysAll rest

/-- The `headers` set (lines 907-909): every key observed in some
result, once (the set is only used through membership and the final
sort, so the order in which duplicates are removed does not matter). -/
def observedKeys (results : List Row) : List String :=
  (keysAll results).dedup

/-- `sorted(list(headers))`: Python sorts strings by code point; on a
duplicate-free list every comparison sort agrees, so insertion sort with
the code-point order models it. -/
def sortedKeys (l : List String) : List String :=
  List.insertionSort (· ≤ ·) l

/-- The deterministic CSV header order (lines 906-920): the priority
fields that occur among the observed keys, in the fixed order, then the
remaining observed keys sorted. -/
def csvHeaders (results : List Row) : List String :=
  let keys := observedKeys results
  importantFields.filter (fun f => keys.contains f) ++
    sortedKeys (keys.filter (fun k => !importantFields.contains k))

/-- Outcome of one file write. -/
inductive WriteOutcome where
  | ok
  | ioError
deriving DecidableEq, Repr

/-- What one `save_to_csv` call attempted and produced: whether each of
the two writes was reached, and the written payloads (header order plus
row dicts for the CSV; the result list dumped verbatim for the JSON). -/
structure SaveResult where
  csvAttempted : Bool
  jsonAttempted : Bool
  csvContent : Option (List String × List Row)
  jsonContent : Option (List Row)
deriving DecidableEq, Repr

/-- `save_to_csv` (lines 889-941): early return on an empty result list;
otherwise a single `try` block covers, in order, the header computation,
the CSV write and the JSON write, with one shared `except` handler — so
a failing CSV write abandons the block before the JSON write is reached,
while a failing JSON write happens after the CSV file is complete.  The
two `WriteOutcome` arguments stand for the I/O fate of each file. -/
def save_to_csv (results : List Row) (csvWrite jsonWrite : WriteOutcome) : SaveResult :=
  if results.isEmpty then ⟨false, false, none, none⟩
  else
    match csvWrite with
    | WriteOutcome.ioError => ⟨true, false, none, none⟩
    | WriteOutcome.ok =>
      match jsonWrite with
      | WriteOutcome.ioError => ⟨true, true, some (csvHeaders results, results), none⟩
      | WriteOutcome.ok => ⟨true, true, some (csvHeaders results, results), some results⟩

/-! ### Lemmas on the string primitives -/

theorem startsWithL_iff (pat : List Char) :
    ∀ s : List Char, startsWithL pat s = true ↔ ∃ t, s = pat ++ t := by
  induction pat with
  | nil => intro s; simp [startsWithL]
  | cons p ps ih =>
    intro s
    cases s with
    | nil =>
      simp [startsWithL]
    | cons c cs =>
      simp only [startsWithL, Bool.and_eq_true, beq_iff_eq, ih cs, List.cons_append]
      constructor
      · rintro ⟨rfl, t, rfl⟩; exact ⟨t, rfl⟩
      · rintro ⟨t, heq⟩
        injection heq with h1 h2
        exact ⟨h1.symm, t, h2⟩

theorem startsWithL_length_le (pat s : List Char) (h : startsWithL pat s = true) :
    pat.length ≤ s.length := by
  rcases (startsWithL_iff pat s).1 h with ⟨t, rfl⟩
  simp

theorem findSub_startsWithL (pat : List Char) :
    ∀ (s : List Char) (i : Nat), findSub pat s = some i →
      startsWithL pat (s.drop i) = true := by
  intro s
  induction s with
  | nil =>
    intro i h
    unfold findSub at h
    split at h
    · next hp => injection h with h'; subst h'; simpa using hp
    · exact absurd h (by simp)
  | cons c rest ih =>
    intro i h
    unfold findSub at h
    split at h
    · next hp => injection h with h'; subst h'; simpa using hp
    · next hp =>
      cases hf : findSub pat rest with
      | none => rw [hf] at h; simp at h
      | some j =>
        rw [hf] at h
        simp only [Option.map_some'] at h
        injection h with h'
        subst h'
        simpa using ih j hf

theorem findSub_le (pat : List Char) :
    ∀ (s : List Char) (i : Nat), findSub pat s = some i → i ≤ s.length := by
  intro s
  induction s with
  | nil =>
    intro i h
    unfold findSub at h
    split at h
    · injection h with h'; omega
    · exact absurd h (by simp)
  | cons c rest ih =>
    intro i h
    unfold findSub at h
    split at h
    · injection h with h'; omega
    · cases hf : findSub pat rest with
      | none => rw [hf] at h; simp at h
      | some j =>
        rw [hf] at h
        simp only [Option.map_some'] at h
        injection h with h'
        subst h'
        have := ih j hf
        simp
        omega

theorem findSub_add_length_le (pat s : List Char) (i : Nat)
    (h : findSub pat s = some i) : i + pat.length ≤ s.length := by
  have h1 := findSub_le pat s i h
  have h2 := startsWithL_length_le pat (s.drop i) (findSub_startsWithL pat s i h)
  rw [List.length_drop] at h2
  omega

theorem findSub_none_of_not_startsWithL (pat : List Char) :
    ∀ s : List Char, findSub pat s = none →
      ∀ i : Nat, startsWithL pat (s.drop i) = false := by
  intro s
  induction s with
  | nil =>
    intro h i
    unfold findSub at h
    split at h
    · simp at h
    · next hp => simpa using hp
  | cons c rest ih =>
    intro h i
    unfold findSub at h
    split at h
    · simp at h
    · next hp =>
      cases hf : findSub pat rest with
      | none =>
        cases i with
        | zero => simpa using hp
        | succ j => simpa using ih hf j
      | some j => rw [hf] at h; simp at h

/-! ### Basic lemmas about rows and emission -/

theorem rowSet_of_not_hasKey (r : Row) (k : String) (v : Val)
    (h : rowHasKey r k = false) : rowSet r k v = r ++ [(k, v)] := by
  simp [rowSet, h]

theorem rowHasKey_append (r : Row) (k k' : String) (v : Val) :
    rowHasKey (r ++ [(k', v)]) k = (rowHasKey r k || k' == k) := by
  simp [rowHasKey, List.any_append]

theorem credorRow_eq_append (base : Row) (c : Credor)
    (h1 : rowHasKey base "Credor" = false)
    (h2 : rowHasKey base "Credor NIF/NIPC" = false) :
    credorRow base c =
      base ++ ([("Credor", Val.s c.nome)] ++
        (match c.nif with
         | some n => [("Credor NIF/NIPC", Val.s n)]
         | none => [])) := by
  unfold credorRow
  rw [rowSet_of_not_hasKey _ _ _ h1]
  cases hn : c.nif with
  | none => simp
  | some n =>
    have h3 : rowHasKey (base ++ [("Credor", Val.s c.nome)]) "Credor NIF/NIPC" = false := by
      rw [rowHasKey_append, h2]
      decide
    simp only []
    rw [rowSet_of_not_hasKey _ _ _ h3]
    simp

theorem emitRecord_length (rec : RecordR)
    (h : ¬(rec.fields.isEmpty = true ∧ rec.credores.isEmpty = true)) :
    (emitRecord rec).length = max 1 rec.credores.length := by
  unfold emitRecord
  by_cases hc : rec.credores.isEmpty = true
  · have hf : rec.fields.isEmpty = false := by
      cases hf : rec.fields.isEmpty
      · rfl
      · exact absurd ⟨hf, hc⟩ h
    have : rec.credores = [] := by
      cases hcase : rec.credores
      · rfl
      · rw [hcase] at hc; simp [List.isEmpty] at hc
    simp [hf, hc, this]
  · have hne : rec.credores ≠ [] := by
      intro he; rw [he] at hc; simp at hc
    have hlen : 1 ≤ rec.credores.length := by
      cases hcase : rec.credores
      · exact absurd hcase hne
      · simp
    cases hb : (rec.fields.isEmpty && rec.credores.isEmpty)
    · simp only [hb, if_neg Bool.false_ne_true]
      have : rec.credores.isEmpty = false := by
        cases hcc : rec.credores.isEmpty
        · rfl
        · exact absurd hcc hc
      simp [this, List.length_map, Nat.max_eq_right hlen]
    · rw [Bool.and_eq_true] at hb
      exact absurd hb.2 hc

theorem expandAll_length (rs : List RecordR)
    (hv : ∀ r ∈ rs, ¬(r.fields.isEmpty = true ∧ r.credores.isEmpty = true)) :
    (expandAll rs).length = (rs.map (fun r => max 1 r.credores.length)).sum := by
  induction rs with
  | nil => simp [expandAll]
  | cons r rs ih =>
    simp only [expandAll, List.length_append, List.map_cons, List.sum_cons]
    rw [emitRecord_length r (hv r (List.mem_cons_self r rs)),
      ih (fun r' hr' => hv r' (List.mem_cons_of_mem r hr'))]

/-- C1: for every result set of parsed records (each a non-empty
candidate, whose extracted field dict does not already use the two
creditor column names), the flat expansion emits one row per creditor
when the creditor list is non-empty — each row being the record's field
dict verbatim followed by the `Credor` column and, when the creditor has
a tax id, the `Credor NIF/NIPC` column — and exactly one row (the field
dict itself, with no creditor columns) when the creditor list is empty;
consequently the number of flat rows is the sum over records of
`max 1 (number of creditors)`. -/
theorem C1_flat_expansion (rs : List RecordR)
    (hv : ∀ r ∈ rs, ¬(r.fields.isEmpty = true ∧ r.credores.isEmpty = true))
    (hk : ∀ r ∈ rs, rowHasKey r.fields "Credor" = false ∧
      rowHasKey r.fields "Credor NIF/NIPC" = false) :
    (∀ r ∈ rs, r.credores ≠ [] →
      emitRecord r = r.credores.map (fun c =>
        r.fields ++ ([("Credor", Val.s c.nome)] ++
          (match c.nif with
           | some n => [("Credor NIF/NIPC", Val.s n)]
           | none => [])))) ∧
    (∀ r ∈ rs, r.credores = [] → emitRecord r = [r.fields]) ∧
    (expandAll rs).length = (rs.map (fun r => max 1 r.credores.length)).sum := by
  refine ⟨?_, ?_, expandAll_length rs hv⟩
  · intro r hr hne
    have hcE : r.credores.isEmpty = false := by
      cases h : r.credores with
      | nil => exact absurd h hne
      | cons a l => simp
    unfold emitRecord
    simp only [hcE, Bool.and_false, if_neg Bool.false_ne_true]
    exact List.map_congr_left (fun c _ =>
      credorRow_eq_append r.fields c (hk r hr).1 (hk r hr).2)
  · intro r hr he
    have hfE : r.fields.isEmpty = false := by
      cases h : r.fields.isEmpty
      · rfl
      · exact absurd ⟨h, by simp [he]⟩ (hv r hr)
    unfold emitRecord
    simp [hfE, he]

/-- Witness for C1 at a concrete result set: one record with two
creditors (the second with a tax id) and one record with none, giving
2 + 1 = 3 flat rows. -/
theorem C1_flat_expansion_witness :
    (expandAll [⟨[("Tribunal", Val.s "T")], [⟨"A", none⟩, ⟨"B", some "5"⟩]⟩,
      ⟨[("Processo", Val.s "P")], []⟩]).length =
    (([⟨[("Tribunal", Val.s "T")], [⟨"A", none⟩, ⟨"B", some "5"⟩]⟩,
      ⟨[("Processo", Val.s "P")], []⟩] : List RecordR).map
        (fun r => max 1 r.credores.length)).sum :=
  (C1_flat_expansion
    [⟨[("Tribunal", Val.s "T")], [⟨"A", none⟩, ⟨"B", some "5"⟩]⟩,
      ⟨[("Processo", Val.s "P")], []⟩]
    (by decide) (by decide)).2.2

/-- C3 counterexample: with a non-empty result list and a failing CSV
write, the JSON write is never attempted — contradicting the claim that
a failure while writing one artifact never prevents the other write from
being attempted, with each write in its own failure boundary. -/
theorem C3_counterexample :
    (save_to_csv [[("Tribunal", Val.s "T")]]
      WriteOutcome.ioError WriteOutcome.ok).jsonAttempted = false := by
  rfl

/-- C3 amended: both writes share one `try`/`except` boundary: the CSV
write always comes first, the JSON write is reached exactly when the CSV
write succeeded (so a JSON failure cannot affect the already-written CSV
file, but a CSV failure suppresses the JSON write), and the JSON file
materializes exactly when both writes succeed. -/
theorem C3_single_boundary (results : List Row) (h : results ≠ [])
    (c j : WriteOutcome) :
    (save_to_csv results c j).csvAttempted = true ∧
    (save_to_csv results c j).jsonAttempted = (c == WriteOutcome.ok) ∧
    (save_to_csv results c j).jsonContent.isSome =
      (c == WriteOutcome.ok && j == WriteOutcome.ok) := by
  have hE : results.isEmpty = false := by
    cases results with
    | nil => exact absurd rfl h
    | cons a l => rfl
  unfold save_to_csv
  rw [hE]
  cases c <;> cases j <;> simp

/-- Witness for C3's amended statement at a one-row result list. -/
theorem C3_single_boundary_witness :
    (save_to_csv [[("Tribunal", Val.s "T")]]
        WriteOutcome.ok WriteOutcome.ioError).csvAttempted = true ∧
    (save_to_csv [[("Tribunal", Val.s "T")]]
        WriteOutcome.ok WriteOutcome.ioError).jsonAttempted =
      (WriteOutcome.ok == WriteOutcome.ok) ∧
    (save_to_csv [[("Tribunal", Val.s "T")]]
        WriteOutcome.ok WriteOutcome.ioError).jsonContent.isSome =
      (WriteOutcome.ok == WriteOutcome.ok && WriteOutcome.ioError == WriteOutcome.ok) :=
  C3_single_boundary [[("Tribunal", Val.s "T")]] (by decide)
    WriteOutcome.ok WriteOutcome.ioError

/-- C4: `_parse_results` selects exactly one layout by trying, in this
fixed order, the `gvResults` table (TABLE), the `divResultados`
container (PANEL_LIST), the `dlResultados` span container
(LABELED_SPANS), the "Todos os tribunais" marker with its parent div
(FLAT_TEXT), else NONE; an explicit no-results marker short-circuits
before all four checks, yielding NONE with an empty result list, and the
default case also returns an empty result list (classification is a
total function, never an error). -/
theorem C4_classification (d : Doc) :
    (hasNoResultsMarker d = true →
      classify d = Layout.NONE ∧ parse_results d = []) ∧
    (hasNoResultsMarker d = false → d.resultTable.isSome = true →
      classify d = Layout.TABLE) ∧
    (hasNoResultsMarker d = false → d.resultTable.isSome = false →
      d.resultsDiv.isSome = true → classify d = Layout.PANEL_LIST) ∧
    (hasNoResultsMarker d = false → d.resultTable.isSome = false →
      d.resultsDiv.isSome = false → d.resultsList.isSome = true →
      classify d = Layout.LABELED_SPANS) ∧
    (hasNoResultsMarker d = false → d.resultTable.isSome = false →
      d.resultsDiv.isSome = false → d.resultsList.isSome = false →
      d.tribunaisDivText.isSome = true → classify d = Layout.FLAT_TEXT) ∧
    (hasNoResultsMarker d = false → d.resultTable.isSome = false →
      d.resultsDiv.isSome = false → d.resultsList.isSome = false →
      d.tribunaisDivText.isSome = false →
      classify d = Layout.NONE ∧ parse_results d = []) := by
  refine ⟨?_, ?_, ?_, ?_, ?_, ?_⟩
  · intro h1
    constructor
    · simp [classify, h1]
    · simp [parse_results, h1]
  · intro h1 h2
    simp [classify, h1, h2]
  · intro h1 h2 h3
    simp [classify, h1, h2, h3]
  · intro h1 h2 h3 h4
    simp [classify, h1, h2, h3, h4]
  · intro h1 h2 h3 h4 h5
    simp [classify, h1, h2, h3, h4, h5]
  · intro h1 h2 h3 h4 h5
    have h2' : d.resultTable = none := by
      cases hx : d.resultTable
      · rfl
      · rw [hx] at h2; simp at h2
    have h3' : d.resultsDiv = none := by
      cases hx : d.resultsDiv
      · rfl
      · rw [hx] at h3; simp at h3
    have h4' : d.resultsList = none := by
      cases hx : d.resultsList
      · rfl
      · rw [hx] at h4; simp at h4
    have h5' : d.tribunaisDivText = none := by
      cases hx : d.tribunaisDivText
      · rfl
      · rw [hx] at h5; simp at h5
    constructor
    · simp [classify, h1, h2, h3, h4, h5]
    · simp [parse_results, h1, h2', h3', h4', h5']

/-- Witness for C4 at two concrete documents: one carrying the explicit
no-results marker (short-circuit to NONE with an empty result list), one
empty document falling through every check. -/
theorem C4_classification_witness :
    (classify ⟨some "Sem resultados", none, none, none, none⟩ = Layout.NONE ∧
      parse_results ⟨some "Sem resultados", none, none, none, none⟩ = []) ∧
    (classify ⟨none, none, none, none, none⟩ = Layout.NONE ∧
      parse_results ⟨none, none, none, none, none⟩ = []) :=
  ⟨(C4_classification ⟨some "Sem resultados", none, none, none, none⟩).1 (by decide),
   (C4_classification ⟨none, none, none, none, none⟩).2.2.2.2.2
     rfl rfl rfl rfl rfl⟩

/-! ### Lemmas on the TABLE path -/

theorem foldl_tableCellStep_eq (ps : List (String × Cell)) :
    ∀ r : Row,
      (∀ p ∈ ps, rowHasKey r p.1 = false) →
      (ps.map Prod.fst).Nodup →
      (∀ p ∈ ps, p.2.links = []) →
      ps.foldl tableCellStep r
        = r ++ ps.map (fun hc => (hc.1, Val.s (pyStripS hc.2.text))) := by
  induction ps with
  | nil => intro r _ _ _; simp
  | cons p ps ih =>
    intro r hfresh hnd hnl
    simp only [List.foldl_cons]
    have hstep : tableCellStep r p = r ++ [(p.1, Val.s (pyStripS p.2.text))] := by
      unfold tableCellStep
      have hl : p.2.links = [] := hnl p (List.mem_cons_self p ps)
      rw [hl]
      simp only [List.isEmpty_nil, if_true]
      exact rowSet_of_not_hasKey _ _ _ (hfresh p (List.mem_cons_self p ps))
    rw [hstep]
    have hndt : (ps.map Prod.fst).Nodup := by
      rw [List.map_cons] at hnd
      exact hnd.of_cons
    have hp1 : p.1 ∉ ps.map Prod.fst := by
      rw [List.map_cons] at hnd
      exact (List.nodup_cons.1 hnd).1
    rw [ih (r ++ [(p.1, Val.s (pyStripS p.2.text))]) ?_ hndt
      (fun q hq => hnl q (List.mem_cons_of_mem p hq))]
    · simp
    · intro q hq
      rw [rowHasKey_append, hfresh q (List.mem_cons_of_mem p hq)]
      have : p.1 ≠ q.1 := by
        intro heq
        exact hp1 (heq ▸ List.mem_map_of_mem Prod.fst hq)
      simp [this]

theorem rowKeys_rowSet_subset (r : Row) (k : String) (v : Val) :
    ∀ k' ∈ rowKeys (rowSet r k v), k' ∈ rowKeys r ∨ k' = k := by
  intro k' h
  unfold rowSet at h
  split at h
  · unfold rowKeys at h ⊢
    rw [List.map_map, List.mem_map] at h
    rcases h with ⟨q, hq, rfl⟩
    by_cases hc : q.1 == k
    · right
      simp [Function.comp, hc]
    · left
      rw [List.mem_map]
      exact ⟨q, hq, by simp [Function.comp, hc]⟩
  · unfold rowKeys at h ⊢
    rw [List.map_append] at h
    rcases (List.mem_append).1 h with h' | h'
    · exact Or.inl h'
    · right
      simpa using h'

theorem tableCellStep_keys (ps : List (String × Cell)) :
    ∀ (r : Row) (k : String), k ∈ rowKeys (ps.foldl tableCellStep r) →
      k ∈ rowKeys r ∨ ∃ p ∈ ps, k = p.1 ∨ k = p.1 ++ "_links" := by
  induction ps with
  | nil => intro r k h; exact Or.inl h
  | cons p ps ih =>
    intro r k h
    simp only [List.foldl_cons] at h
    rcases ih (tableCellStep r p) k h with h' | ⟨q, hq, hk⟩
    · unfold tableCellStep at h'
      simp only [] at h'
      split at h'
      · rcases rowKeys_rowSet_subset r p.1 _ k h' with h'' | rfl
        · exact Or.inl h''
        · exact Or.inr ⟨p, List.mem_cons_self p ps, Or.inl rfl⟩
      · rcases rowKeys_rowSet_subset _ (p.1 ++ "_links") _ k h' with h'' | rfl
        · rcases rowKeys_rowSet_subset r p.1 _ k h'' with h3 | rfl
          · exact Or.inl h3
          · exact Or.inr ⟨p, List.mem_cons_self p ps, Or.inl rfl⟩
        · exact Or.inr ⟨p, List.mem_cons_self p ps, Or.inr rfl⟩
    · exact Or.inr ⟨q, List.mem_cons_of_mem p hq, hk⟩

theorem processRow_keys (headers : List String) (cells : List Cell) (row : Row)
    (h : processRow headers cells = some row) :
    ∀ k ∈ rowKeys row, k ∈ headers ∨ ∃ hd ∈ headers, k = hd ++ "_links" := by
  unfold processRow at h
  split at h
  · injection h with h'
    subst h'
    intro k hk
    rcases tableCellStep_keys _ [] k hk with h0 | ⟨p, hp, hk'⟩
    · simp [rowKeys] at h0
    · obtain ⟨a, b⟩ := p
      have hp1 : a ∈ headers := (List.of_mem_zip hp).1
      rcases hk' with rfl | rfl
      · exact Or.inl hp1
      · exact Or.inr ⟨a, hp1, rfl⟩
  · cases h

theorem tableRowsGo_keys (headers : List String) :
    ∀ (rows : List TRow) (row : Row), row ∈ tableRowsGo headers rows →
      ∀ k ∈ rowKeys row, k ∈ headers ∨ ∃ hd ∈ headers, k = hd ++ "_links" := by
  intro rows
  induction rows with
  | nil => intro row h; simp [tableRowsGo] at h
  | cons tr rest ih =>
    intro row h
    unfold tableRowsGo at h
    cases hp : processRow headers tr.cells with
    | some r0 =>
      rw [hp] at h
      rcases (List.mem_cons).1 h with rfl | h'
      · exact processRow_keys headers tr.cells row hp
      · exact ih row h'
    | none =>
      rw [hp] at h
      exact ih row h

theorem parse_table_results_keys (t : TableElem) (row : Row)
    (h : row ∈ parse_table_results t) :
    ∀ k ∈ rowKeys row,
      k ∈ tableHeaders t ∨ ∃ hd ∈ tableHeaders t, k = hd ++ "_links" := by
  simp only [parse_table_results] at h
  split at h
  · simp at h
  · exact tableRowsGo_keys (tableHeaders t) _ row h

/-- C10: in the TABLE layout, a data row with strictly fewer cells than
headers produces no record at all (skipped, not padded), while a row
with at least as many cells yields a record pairing the i-th header with
the i-th cell's text, using exactly the first `len(headers)` cells
(stated for rows whose cells carry no links and duplicate-free headers,
so that the dict is the plain header/cell pairing). -/
theorem C10_table_row_arity (headers : List String) (cells : List Cell)
    (hnd : headers.Nodup) (hnl : ∀ c ∈ cells, c.links = []) :
    (cells.length < headers.length → processRow headers cells = none) ∧
    (headers.length ≤ cells.length →
      processRow headers cells =
        some ((headers.zip (cells.take headers.length)).map
          (fun hc => (hc.1, Val.s (pyStripS hc.2.text))))) := by
  constructor
  · intro hlt
    unfold processRow
    rw [if_neg (by omega)]
  · intro hle
    unfold processRow
    rw [if_pos hle]
    congr 1
    have hfst : (headers.zip (cells.take headers.length)).map Prod.fst = headers := by
      apply List.map_fst_zip
      rw [List.length_take]
      omega
    rw [foldl_tableCellStep_eq _ [] (fun p _ => rfl) (by rw [hfst]; exact hnd) ?_]
    · simp
    · intro p hp
      obtain ⟨a, b⟩ := p
      exact hnl b (List.take_subset _ _ (List.of_mem_zip hp).2)

/-- Witness for C10: a two-header table; a one-cell row is skipped, a
three-cell row is truncated to the first two cells. -/
theorem C10_table_row_arity_witness :
    (([⟨"c1", []⟩] : List Cell).length < (["Tribunal", "Processo"] : List String).length →
      processRow ["Tribunal", "Processo"] [⟨"c1", []⟩] = none) ∧
    ((["Tribunal", "Processo"] : List String).length ≤
        ([⟨"c1", []⟩, ⟨"c2", []⟩, ⟨"c3", []⟩] : List Cell).length →
      processRow ["Tribunal", "Processo"] [⟨"c1", []⟩, ⟨"c2", []⟩, ⟨"c3", []⟩] =
        some (((["Tribunal", "Processo"] : List String).zip
            (([⟨"c1", []⟩, ⟨"c2", []⟩, ⟨"c3", []⟩] : List Cell).take 2)).map
          (fun hc => (hc.1, Val.s (pyStripS hc.2.text))))) :=
  ⟨(C10_table_row_arity ["Tribunal", "Processo"] [⟨"c1", []⟩]
      (by decide) (by decide)).1,
   (C10_table_row_arity ["Tribunal", "Processo"] [⟨"c1", []⟩, ⟨"c2", []⟩, ⟨"c3", []⟩]
      (by decide) (by decide)).2⟩

/-- C5 counterexample: a TABLE cell whose text contains a `Credor:`
fragment is stored verbatim under its header, no creditor being
extracted and no `Credor` column appearing — although the layout-
agnostic span scan applied to the same text does yield a creditor — so
TABLE records do not get the `Credor:` scan the other layouts get. -/
theorem C5_counterexample :
    parse_table_results ⟨some ["Tribunal"], [⟨true, [⟨"Credor: Acme Lda", []⟩]⟩]⟩
      = [[("Tribunal", Val.s "Credor: Acme Lda")]] ∧
    spanCredor "Credor: Acme Lda" = some ⟨"Acme Lda", none⟩ ∧
    rowHasKey [("Tribunal", Val.s "Credor: Acme Lda")] "Credor" = false := by
  refine ⟨by decide, by decide, by decide⟩

/-- C5 amended: the creditor sub-extractor runs only in the PANEL_LIST,
LABELED_SPANS and FLAT_TEXT paths.  The TABLE path performs no creditor
extraction: every key of every TABLE-produced row is a table header or a
header's `_links` companion, so `Credor:` text inside cells is never
parsed into creditors.  The PANEL_LIST and LABELED_SPANS paths do invoke
the identical per-span scan (the `"Credor:" in span_text` pre-check of
the latter is redundant), while FLAT_TEXT uses a line-oriented variant
of the pattern. -/
theorem C5_table_no_creditors (t : TableElem) :
    (∀ row ∈ parse_table_results t, ∀ k ∈ rowKeys row,
      k ∈ tableHeaders t ∨ ∃ hd ∈ tableHeaders t, k = hd ++ "_links") ∧
    (∀ s : String, listSpanCredor s = spanCredor s) := by
  constructor
  · intro row hrow
    exact parse_table_results_keys t row hrow
  · intro s
    unfold listSpanCredor
    by_cases hc : containsSub credorPat s.data = true
    · rw [if_pos hc]
    · rw [if_neg hc]
      unfold containsSub at hc
      cases hf : findSub credorPat s.data with
      | some i => rw [hf] at hc; simp at hc
      | none => unfold spanCredor; rw [hf]

/-- Witness for C5's amended statement: on the counterexample table the
single produced row's keys are within the headers, and the two span
scans agree on a creditor fragment. -/
theorem C5_table_no_creditors_witness :
    (∀ row ∈ parse_table_results
        ⟨some ["Tribunal"], [⟨true, [⟨"Credor: Acme Lda", []⟩]⟩]⟩,
      ∀ k ∈ rowKeys row,
        k ∈ tableHeaders ⟨some ["Tribunal"], [⟨true, [⟨"Credor: Acme Lda", []⟩]⟩]⟩ ∨
        ∃ hd ∈ tableHeaders ⟨some ["Tribunal"], [⟨true, [⟨"Credor: Acme Lda", []⟩]⟩]⟩,
          k = hd ++ "_links") ∧
    listSpanCredor "Credor: Acme Lda" = spanCredor "Credor: Acme Lda" :=
  ⟨(C5_table_no_creditors ⟨some ["Tribunal"], [⟨true, [⟨"Credor: Acme Lda", []⟩]⟩]⟩).1,
   (C5_table_no_creditors ⟨some ["Tribunal"], [⟨true, [⟨"Credor: Acme Lda", []⟩]⟩]⟩).2
     "Credor: Acme Lda"⟩

/-! ### Lemmas on the creditor scans -/

theorem spanCredor_nome_ne (s : String) (c : Credor)
    (h : spanCredor s = some c) : c.nome ≠ "" := by
  unfold spanCredor at h
  cases hf : findSub credorPat s.data with
  | none => rw [hf] at h; cases h
  | some i =>
    rw [hf] at h
    simp only [] at h
    split at h
    · cases h
    · next hne =>
      injection h with h'
      subst h'
      intro habs
      apply hne
      have hl : pyStrip
          ((credorScanDiv [] (dropPySpaces (s.data.drop (i + credorPat.length)))).1)
          = [] := by
        have hd := congrArg String.data habs
        simpa using hd
      rw [hl]
      rfl

theorem listSpanCredor_nome_ne (s : String) (c : Credor)
    (h : listSpanCredor s = some c) : c.nome ≠ "" := by
  unfold listSpanCredor at h
  split at h
  · exact spanCredor_nome_ne s c h
  · cases h

theorem textCredores_step_nome_ne (fuel : Nat) (nn : List Char × List Char × List Char)
    (ihstep : ∀ c : Credor, c ∈ textCredoresGo fuel nn.2.2 → c.nome ≠ "")
    (c : Credor)
    (hc : c ∈ (if (pyStrip nn.1).isEmpty then textCredoresGo fuel nn.2.2
      else (⟨⟨pyStrip nn.1⟩,
        (if (pyStrip nn.2.1).isEmpty then none
         else some ⟨pyStrip nn.2.1⟩)⟩ : Credor) :: textCredoresGo fuel nn.2.2)) :
    c.nome ≠ "" := by
  split at hc
  · exact ihstep c hc
  · next hne =>
    rw [List.mem_cons] at hc
    rcases hc with rfl | hc
    · intro habs
      apply hne
      have hd := congrArg String.data habs
      simp only [] at hd
      rw [hd]
      rfl
    · exact ihstep c hc

theorem textCredoresGo_nome_ne (fuel : Nat) :
    ∀ (s : List Char) (c : Credor), c ∈ textCredoresGo fuel s → c.nome ≠ "" := by
  induction fuel with
  | zero => intro s c hc; simp [textCredoresGo] at hc
  | succ fuel ih =>
    intro s c hc
    unfold textCredoresGo at hc
    cases hf : findSub credorPat s with
    | none => rw [hf] at hc; simp at hc
    | some i =>
      rw [hf] at hc
      exact textCredores_step_nome_ne fuel _ (fun c' hc' => ih _ c' hc') c hc

/-- C6 counterexample: the claim fails on the FLAT_TEXT path.  Its
pattern's greedy name capture `([^\n]+)` runs to the end of the line and
a backtracking engine never shrinks it for the trailing optional group,
so for the fragment `Credor: Acme Lda NIF/NIPC: 500123456` the section
scanner of `_parse_text_results` yields one creditor whose name is the
whole glued line and which has no tax id — not the claimed
name `Acme Lda` with tax id `500123456`. -/
theorem C6_counterexample :
    textCredores ("Credor: Acme Lda NIF/NIPC: 500123456").data
      = [⟨"Acme Lda NIF/NIPC: 500123456", none⟩] ∧
    textCredores ("Credor: Acme Lda NIF/NIPC: 500123456").data
      ≠ [⟨"Acme Lda", some "500123456"⟩] :=
  ⟨by decide, by decide⟩

/-- C6 amended: in the PANEL_LIST and LABELED_SPANS span scans the
matching is as claimed — `Credor: Acme Lda` yields the creditor
`Acme Lda` with no tax id and `Credor: Acme Lda NIF/NIPC: 500123456`
yields `Acme Lda` with tax id `500123456` — but in the FLAT_TEXT path
the greedy name capture takes the whole line, so a same-line `NIF/NIPC:`
is glued into the name with no tax id, and a tax id is captured exactly
when the first non-whitespace text after the name's line starts with
`NIF/NIPC:`; in every path a match whose stripped name capture is empty
is discarded. -/
theorem C6_creditor_matching :
    spanCredor "Credor: Acme Lda" = some ⟨"Acme Lda", none⟩ ∧
    spanCredor "Credor: Acme Lda NIF/NIPC: 500123456" =
      some ⟨"Acme Lda", some "500123456"⟩ ∧
    listSpanCredor "Credor: Acme Lda" = some ⟨"Acme Lda", none⟩ ∧
    listSpanCredor "Credor: Acme Lda NIF/NIPC: 500123456" =
      some ⟨"Acme Lda", some "500123456"⟩ ∧
    textCredores ("Credor: Acme Lda").data = [⟨"Acme Lda", none⟩] ∧
    textCredores ("Credor: Acme Lda NIF/NIPC: 500123456").data =
      [⟨"Acme Lda NIF/NIPC: 500123456", none⟩] ∧
    textCredores ("Credor: Acme Lda\nNIF/NIPC: 500123456").data =
      [⟨"Acme Lda", some "500123456"⟩] ∧
    (∀ (s : String) (c : Credor), spanCredor s = some c → c.nome ≠ "") ∧
    (∀ (s : String) (c : Credor), listSpanCredor s = some c → c.nome ≠ "") ∧
    (∀ (s : List Char) (c : Credor), c ∈ textCredores s → c.nome ≠ "") :=
  ⟨by decide, by decide, by decide, by decide, by decide, by decide, by decide,
   spanCredor_nome_ne, listSpanCredor_nome_ne,
   fun s c hc => textCredoresGo_nome_ne (s.length + 1) s c hc⟩

/-- Witness for C6's amended statement, instantiating the discard rule
at the creditor produced from the concrete fragment. -/
theorem C6_creditor_matching_witness :
    (⟨"Acme Lda", none⟩ : Credor).nome ≠ "" :=
  C6_creditor_matching.2.2.2.2.2.2.2.1 "Credor: Acme Lda" ⟨"Acme Lda", none⟩
    (by decide)

/-- C7 counterexample: in the PANEL_LIST (div) layout the `Conteúdo`
fallback has no minimum-length threshold: an item whose flattened text
is the 3-character string "N/A" (and which yields nothing by either
strategy) produces a `Conteúdo` record instead of being discarded. -/
theorem C7_counterexample :
    parse_div_results ⟨[⟨none, none, none, none, none, none, [], [], "N/A", []⟩]⟩
      = [[("Conteúdo", Val.s "N/A")]] := by
  decide

/-- C7 amended: the 10-character minimum applies only in the
LABELED_SPANS path's fallback for items that lack a result div (there, a
record appears exactly when the text has more than 10 characters); in
the PANEL_LIST path — and in the LABELED_SPANS result-div branch, which
shares the same field extraction — the synthetic `Conteúdo` record is
produced for any non-empty flattened text, with no minimum length (and
only when the item also has no links, since a `Links` entry already
makes the dict non-empty). -/
theorem C7_min_length_scope (it : ListItem) (dit : DivItem)
    (hld : it.resultDiv = none) (hll : it.links = [])
    (h1 : dit.processo = none) (h2 : dit.tribunal = none) (h3 : dit.data = none)
    (h4 : dit.interveniente = none) (h5 : dit.nif = none) (h6 : dit.descricao = none)
    (h7 : dit.strongPairs = []) (h8 : dit.links = []) (h9 : dit.spanTexts = []) :
    listItemRows it =
      (if 10 < it.fullText.length then [[("Conteúdo", Val.s it.fullText)]] else []) ∧
    divItemRows dit =
      (if dit.fullText = "" then [] else [[("Conteúdo", Val.s dit.fullText)]]) := by
  constructor
  · unfold listItemRows
    rw [hld]
    by_cases hc : 10 < it.fullText.length
    · have hne : it.fullText ≠ "" := by
        intro heq
        rw [heq] at hc
        exact absurd hc (by decide)
      rw [if_pos hc]
      simp only [hll]
      rw [if_pos ⟨hne, hc⟩]
      simp [rowSet, rowHasKey]
    · rw [if_neg hc, if_neg (fun hand => hc hand.2)]
  · unfold divItemRows divFields
    rw [h1, h2, h3, h4, h5, h6, h7, h8, h9]
    by_cases hT : dit.fullText = ""
    · rw [if_pos hT]
      simp [setIfSome, applyStrongPairs, emitRecord, spanCredores, hT]
    · rw [if_neg hT]
      simp [setIfSome, applyStrongPairs, emitRecord, spanCredores, hT,
        rowSet, rowHasKey]

/-- Witness for C7's amended statement at two concrete items: a
LABELED_SPANS item with 3-character text is discarded, while a
PANEL_LIST item with the same text still yields a record. -/
theorem C7_min_length_scope_witness :
    listItemRows ⟨none, [], "N/A", []⟩ =
      (if 10 < ("N/A" : String).length then [[("Conteúdo", Val.s "N/A")]] else []) ∧
    divItemRows ⟨none, none, none, none, none, none, [], [], "N/A", []⟩ =
      (if ("N/A" : String) = "" then [] else [[("Conteúdo", Val.s "N/A")]]) :=
  C7_min_length_scope ⟨none, [], "N/A", []⟩
    ⟨none, none, none, none, none, none, [], [], "N/A", []⟩
    rfl rfl rfl rfl rfl rfl rfl rfl rfl rfl rfl

/-- C2 counterexample: for a FLAT_TEXT document holding one case record
with two creditors, the JSON ("hierarchical") artifact receives the
already-flattened rows: two entries, each carrying a `Credor` column and
no nested creditor sequence — the creditor list is flattened into one
entry per creditor, so the original one-record ResultSet (fields with a
two-element creditor order) cannot be reconstructed from the file. -/
theorem C2_counterexample :
    (save_to_csv
      (parse_results ⟨none, none, none, none,
        some "Tribunal: Lisboa\nCredor: A\nCredor: B"⟩)
      WriteOutcome.ok WriteOutcome.ok).jsonContent =
    some [[("Tribunal", Val.s "Lisboa"), ("Credor", Val.s "A")],
      [("Tribunal", Val.s "Lisboa"), ("Credor", Val.s "B")]] := by
  decide

/-- C2 amended: the JSON artifact serializes the already-expanded flat
row list verbatim — one entry per creditor when a record has creditors —
so parsing it back recovers the flat rows, not a nested ResultSet: on a
successful save of an expanded record set the JSON content is exactly
the expansion, with `sum (max 1 (len creditors))` entries. -/
theorem C2_json_serializes_flat (rs : List RecordR)
    (hv : ∀ r ∈ rs, ¬(r.fields.isEmpty = true ∧ r.credores.isEmpty = true))
    (hne : expandAll rs ≠ []) :
    (save_to_csv (expandAll rs) WriteOutcome.ok WriteOutcome.ok).jsonContent
      = some (expandAll rs) ∧
    ((save_to_csv (expandAll rs) WriteOutcome.ok WriteOutcome.ok).jsonContent.map
        List.length)
      = some ((rs.map (fun r => max 1 r.credores.length)).sum) := by
  have hE : (expandAll rs).isEmpty = false := by
    cases hx : expandAll rs with
    | nil => exact absurd hx hne
    | cons a l => rfl
  constructor
  · simp [save_to_csv, hE]
  · simp [save_to_csv, hE, expandAll_length rs hv]

/-- Witness for C2's amended statement at one record with two
creditors: the JSON payload is its two-row expansion. -/
theorem C2_json_serializes_flat_witness :
    (save_to_csv (expandAll [⟨[("Tribunal", Val.s "T")], [⟨"A", none⟩, ⟨"B", none⟩]⟩])
        WriteOutcome.ok WriteOutcome.ok).jsonContent
      = some (expandAll [⟨[("Tribunal", Val.s "T")], [⟨"A", none⟩, ⟨"B", none⟩]⟩]) ∧
    ((save_to_csv (expandAll [⟨[("Tribunal", Val.s "T")], [⟨"A", none⟩, ⟨"B", none⟩]⟩])
        WriteOutcome.ok WriteOutcome.ok).jsonContent.map List.length)
      = some ((([⟨[("Tribunal", Val.s "T")], [⟨"A", none⟩, ⟨"B", none⟩]⟩]
          : List RecordR).map (fun r => max 1 r.credores.length)).sum) :=
  C2_json_serializes_flat [⟨[("Tribunal", Val.s "T")], [⟨"A", none⟩, ⟨"B", none⟩]⟩]
    (by decide) (by decide)

/-! ### Lemmas on the CSV header order -/

theorem contains_iff_mem_str (l : List String) (a : String) :
    l.contains a = true ↔ a ∈ l :=
  List.elem_iff

theorem importantFields_nodup : importantFields.Nodup := by
  decide

/-- C8: for every non-empty result list the CSV column order is
deterministic: the priority prefix (Tribunal, Processo, Data,
Insolvente, NIF/NIPC, Credor, Credor NIF/NIPC) appears first, in that
fixed order restricted to the keys actually observed (a sublist of the
priority list), followed by the remaining observed keys in sorted
(lexicographic) order; the header set is exactly the union of observed
keys, each appearing once. -/
theorem C8_column_order (results : List Row) (_hne : results ≠ []) :
    (∀ k, k ∈ csvHeaders results ↔ k ∈ observedKeys results) ∧
    ((csvHeaders results).take
        (importantFields.filter (fun f => (observedKeys results).contains f)).length
      = importantFields.filter (fun f => (observedKeys results).contains f)) ∧
    ((importantFields.filter (fun f => (observedKeys results).contains f)).Sublist
      importantFields) ∧
    List.Sorted (· ≤ ·)
      ((csvHeaders results).drop
        (importantFields.filter (fun f => (observedKeys results).contains f)).length) ∧
    (csvHeaders results).Nodup := by
  have hcsv : csvHeaders results =
      importantFields.filter (fun f => (observedKeys results).contains f) ++
        sortedKeys ((observedKeys results).filter
          (fun k => !importantFields.contains k)) := rfl
  refine ⟨?_, ?_, List.filter_sublist _, ?_, ?_⟩
  · intro k
    rw [hcsv, List.mem_append, sortedKeys, List.mem_insertionSort]
    constructor
    · rintro (h | h)
      · rw [List.mem_filter] at h
        exact (contains_iff_mem_str _ k).1 h.2
      · rw [List.mem_filter] at h
        exact h.1
    · intro h
      by_cases hi : importantFields.contains k = true
      · left
        rw [List.mem_filter]
        exact ⟨(contains_iff_mem_str _ _).1 hi, (contains_iff_mem_str _ _).2 h⟩
      · right
        rw [List.mem_filter]
        refine ⟨h, ?_⟩
        cases hx : importantFields.contains k
        · rfl
        · exact absurd hx hi
  · rw [hcsv, List.take_left]
  · rw [hcsv, List.drop_left]
    exact List.sorted_insertionSort (· ≤ ·) _
  · rw [hcsv]
    apply List.Nodup.append
    · exact List.Nodup.filter _ importantFields_nodup
    · exact ((List.perm_insertionSort (· ≤ ·) _).nodup_iff).2
        (List.Nodup.filter _ (List.nodup_dedup _))
    · intro a ha hb
      rw [List.mem_filter] at ha
      rw [sortedKeys, List.mem_insertionSort, List.mem_filter] at hb
      have hmem := (contains_iff_mem_str importantFields a).2 ha.1
      have hb2 := hb.2
      rw [hmem] at hb2
      exact absurd hb2 (by decide)

/-- Witness for C8 at a two-row result list mixing priority and
non-priority keys: `Tribunal` and `Credor` lead, `Alpha` and `Zeta`
follow sorted. -/
theorem C8_column_order_witness :
    (("Zeta" ∈ csvHeaders [[("Zeta", Val.s "1"), ("Credor", Val.s "c")],
        [("Alpha", Val.s "2"), ("Tribunal", Val.s "t")]]) ↔
      ("Zeta" ∈ observedKeys [[("Zeta", Val.s "1"), ("Credor", Val.s "c")],
        [("Alpha", Val.s "2"), ("Tribunal", Val.s "t")]])) ∧
    ((csvHeaders [[("Zeta", Val.s "1"), ("Credor", Val.s "c")],
        [("Alpha", Val.s "2"), ("Tribunal", Val.s "t")]]).take
      (importantFields.filter (fun f =>
        (observedKeys [[("Zeta", Val.s "1"), ("Credor", Val.s "c")],
          [("Alpha", Val.s "2"), ("Tribunal", Val.s "t")]]).contains f)).length
      = importantFields.filter (fun f =>
        (observedKeys [[("Zeta", Val.s "1"), ("Credor", Val.s "c")],
          [("Alpha", Val.s "2"), ("Tribunal", Val.s "t")]]).contains f)) :=
  ⟨(C8_column_order [[("Zeta", Val.s "1"), ("Credor", Val.s "c")],
      [("Alpha", Val.s "2"), ("Tribunal", Val.s "t")]] (by decide)).1 "Zeta",
   (C8_column_order [[("Zeta", Val.s "1"), ("Credor", Val.s "c")],
      [("Alpha", Val.s "2"), ("Tribunal", Val.s "t")]] (by decide)).2.1⟩

/-! ### Lemmas on the FLAT_TEXT section split -/

theorem startsWithL_append_right (pat s t : List Char)
    (h : startsWithL pat s = true) : startsWithL pat (s ++ t) = true := by
  rcases (startsWithL_iff pat s).1 h with ⟨u, rfl⟩
  exact (startsWithL_iff pat _).2 ⟨u ++ t, by simp⟩

theorem startsWithL_refl (pat : List Char) : startsWithL pat pat = true :=
  (startsWithL_iff pat pat).2 ⟨[], by simp⟩

theorem splitKeepGo_ne_nil (pat : List Char) :
    ∀ (rest acc : List Char), splitKeepGo pat acc rest ≠ [] := by
  intro rest
  induction rest with
  | nil => intro acc; simp [splitKeepGo]
  | cons c rest ih =>
    intro acc
    unfold splitKeepGo
    split
    · simp
    · exact ih (c :: acc)

theorem splitKeepGo_join (pat : List Char) :
    ∀ (rest acc : List Char),
      joinL (splitKeepGo pat acc rest) = acc.reverse ++ rest := by
  intro rest
  induction rest with
  | nil => intro acc; simp [splitKeepGo, joinL]
  | cons c rest ih =>
    intro acc
    unfold splitKeepGo
    split
    · simp only [joinL, ih [c]]
      simp
    · rw [ih (c :: acc)]
      simp

theorem splitKeepGo_length (pat : List Char) :
    ∀ (rest acc : List Char),
      (splitKeepGo pat acc rest).length = 1 + countOcc pat rest := by
  intro rest
  induction rest with
  | nil => intro acc; simp [splitKeepGo, countOcc]
  | cons c rest ih =>
    intro acc
    unfold splitKeepGo
    split
    · next hcut =>
      simp only [List.length_cons, ih [c], countOcc, hcut, if_pos]
      omega
    · next hcut =>
      rw [ih (c :: acc)]
      simp only [countOcc, if_neg hcut]
      omega

theorem splitKeepGo_head_not_contains (p₀ : Char) (pr : List Char) :
    ∀ (rest acc : List Char),
      (∀ j, j < acc.length →
        startsWithL (p₀ :: pr) ((acc.reverse ++ rest).drop j) = false) →
      containsSub (p₀ :: pr) (splitKeepGo (p₀ :: pr) acc rest).headI = false := by
  intro rest
  induction rest with
  | nil =>
    intro acc hinv
    simp only [splitKeepGo, List.headI]
    unfold containsSub
    cases hf : findSub (p₀ :: pr) acc.reverse with
    | none => rfl
    | some j =>
      exfalso
      have hsw := findSub_startsWithL _ _ _ hf
      have hle := findSub_le _ _ _ hf
      rw [List.length_reverse] at hle
      rcases Nat.lt_or_ge j acc.length with hlt | hge
      · have hfalse := hinv j hlt
        rw [List.append_nil] at hfalse
        rw [hfalse] at hsw
        exact absurd hsw (by decide)
      · have hj : j = acc.length := Nat.le_antisymm hle hge
        subst hj
        rw [← List.length_reverse acc, List.drop_length] at hsw
        simp [startsWithL] at hsw
  | cons c rest ih =>
    intro acc hinv
    unfold splitKeepGo
    split
    · next hcut =>
      simp only [List.headI]
      unfold containsSub
      cases hf : findSub (p₀ :: pr) acc.reverse with
      | none => rfl
      | some j =>
        exfalso
        have hsw := findSub_startsWithL _ _ _ hf
        have hle := findSub_le _ _ _ hf
        rw [List.length_reverse] at hle
        rcases Nat.lt_or_ge j acc.length with hlt | hge
        · have hfalse := hinv j hlt
          have hdrop : (acc.reverse ++ c :: rest).drop j =
              acc.reverse.drop j ++ c :: rest :=
            List.drop_append_of_le_length (by rw [List.length_reverse]; omega)
          rw [hdrop] at hfalse
          have htrue := startsWithL_append_right _ _ (c :: rest) hsw
          rw [htrue] at hfalse
          exact absurd hfalse (by decide)
        · have hj : j = acc.length := Nat.le_antisymm hle hge
          subst hj
          rw [← List.length_reverse acc, List.drop_length] at hsw
          simp [startsWithL] at hsw
    · next hcut =>
      apply ih (c :: acc)
      intro j hj
      have heq : (c :: acc).reverse ++ rest = acc.reverse ++ c :: rest := by simp
      rw [heq]
      rcases Nat.lt_or_ge j acc.length with hlt | hge
      · exact hinv j hlt
      · have hj' : j = acc.length := by
          simp only [List.length_cons] at hj
          omega
        subst hj'
        have hdrop : (acc.reverse ++ c :: rest).drop acc.length = c :: rest := by
          rw [← List.length_reverse acc, List.drop_left]
        rw [hdrop]
        cases hx : startsWithL (p₀ :: pr) (c :: rest)
        · rfl
        · exact absurd hx hcut

theorem splitKeepGo_start_inv_of_cut (p₀ : Char) (pr : List Char) (c : Char)
    (rest : List Char) (hcut : startsWithL (p₀ :: pr) (c :: rest) = true) :
    (p₀ :: pr).length ≤ ([c] : List Char).length ∧
      startsWithL (p₀ :: pr) ([c] : List Char).reverse = true ∨
    ([c] : List Char).length < (p₀ :: pr).length ∧
      ([c] : List Char).reverse = (p₀ :: pr).take ([c] : List Char).length ∧
      startsWithL (p₀ :: pr) (([c] : List Char).reverse ++ rest) = true := by
  cases pr with
  | nil =>
    have hc : p₀ = c := by
      simpa [startsWithL] using hcut
    left
    exact ⟨by simp, by simp [startsWithL, hc]⟩
  | cons q qs =>
    have hc : p₀ = c := by
      have h' := hcut
      simp [startsWithL] at h'
      exact h'.1
    right
    refine ⟨by simp, by simp [hc], by simpa using hcut⟩

theorem splitKeepGo_all_start (p₀ : Char) (pr : List Char) (hov : p₀ ∉ pr) :
    ∀ (rest acc : List Char), acc ≠ [] →
      ((p₀ :: pr).length ≤ acc.length ∧ startsWithL (p₀ :: pr) acc.reverse = true ∨
       acc.length < (p₀ :: pr).length ∧ acc.reverse = (p₀ :: pr).take acc.length ∧
         startsWithL (p₀ :: pr) (acc.reverse ++ rest) = true) →
      ∀ sec ∈ splitKeepGo (p₀ :: pr) acc rest,
        startsWithL (p₀ :: pr) sec = true := by
  intro rest
  induction rest with
  | nil =>
    intro acc hne hinv sec hsec
    simp only [splitKeepGo, List.mem_singleton] at hsec
    subst hsec
    rcases hinv with ⟨_, h⟩ | ⟨_, _, h⟩
    · exact h
    · rw [List.append_nil] at h
      exact h
  | cons c rest ih =>
    intro acc hne hinv sec hsec
    unfold splitKeepGo at hsec
    split at hsec
    · next hcut =>
      rcases List.mem_cons.1 hsec with rfl | hsec'
      · rcases hinv with ⟨_, h⟩ | ⟨hlt, htake, hglob⟩
        · exact h
        · exfalso
          rcases (startsWithL_iff _ _).1 hglob with ⟨u, hu⟩
          have hsplit : (p₀ :: pr).take acc.length ++
              ((p₀ :: pr).drop acc.length ++ u)
              = (p₀ :: pr).take acc.length ++ (c :: rest) := by
            rw [← List.append_assoc, List.take_append_drop, ← htake, ← hu]
          have hdropeq : (p₀ :: pr).drop acc.length ++ u = c :: rest :=
            List.append_cancel_left hsplit
          cases hdj : (p₀ :: pr).drop acc.length with
          | nil =>
            have hlen : (p₀ :: pr).length ≤ acc.length :=
              (List.drop_eq_nil_iff).1 hdj
            simp only [List.length_cons] at hlen hlt
            omega
          | cons d ds =>
            rw [hdj] at hdropeq
            injection hdropeq with hcd _
            have hj1 : 1 ≤ acc.length := by
              cases acc with
              | nil => exact absurd rfl hne
              | cons _ _ => simp
            have hdj' : pr.drop (acc.length - 1) = d :: ds := by
              have hstep : (p₀ :: pr).drop acc.length = pr.drop (acc.length - 1) := by
                cases hacc : acc.length with
                | zero => omega
                | succ n => simp
              rw [← hstep, hdj]
            have hdpr : d ∈ pr :=
              List.drop_subset _ pr (hdj' ▸ List.mem_cons_self d ds)
            have hcp : p₀ = c ∧ startsWithL pr rest = true := by
              simpa [startsWithL] using hcut
            rw [hcd, ← hcp.1] at hdpr
            exact hov hdpr
      · exact ih [c] (by simp)
          (splitKeepGo_start_inv_of_cut p₀ pr c rest hcut) sec hsec'
    · next hcut =>
      apply ih (c :: acc) (by simp) ?_ sec hsec
      rcases hinv with ⟨hlen, hsw⟩ | ⟨hlt, htake, hglob⟩
      · left
        refine ⟨?_, ?_⟩
        · simp only [List.length_cons] at hlen ⊢
          omega
        · rw [List.reverse_cons]
          exact startsWithL_append_right _ _ _ hsw
      · rcases (startsWithL_iff _ _).1 hglob with ⟨u, hu⟩
        have hsplit : (p₀ :: pr).take acc.length ++
            ((p₀ :: pr).drop acc.length ++ u)
            = (p₀ :: pr).take acc.length ++ (c :: rest) := by
          rw [← List.append_assoc, List.take_append_drop, ← htake, ← hu]
        have hdropeq : (p₀ :: pr).drop acc.length ++ u = c :: rest :=
          List.append_cancel_left hsplit
        cases hdj : (p₀ :: pr).drop acc.length with
        | nil =>
          have hlen : (p₀ :: pr).length ≤ acc.length :=
            (List.drop_eq_nil_iff).1 hdj
          simp only [List.length_cons] at hlen hlt
          omega
        | cons d ds =>
          rw [hdj] at hdropeq
          injection hdropeq with hcd _
          have htake' : (c :: acc).reverse = (p₀ :: pr).take (acc.length + 1) := by
            rw [List.reverse_cons, htake, ← hcd]
            rw [List.take_add (p₀ :: pr) acc.length 1, hdj]
            rfl
          by_cases hend : acc.length + 1 < (p₀ :: pr).length
          · right
            refine ⟨by simpa using hend, htake', ?_⟩
            have heq : (c :: acc).reverse ++ rest = acc.reverse ++ c :: rest := by
              simp
            rw [heq]
            exact hglob
          · left
            have hj1 : acc.length + 1 = (p₀ :: pr).length := by
              simp only [List.length_cons] at hend hlt ⊢
              omega
            refine ⟨by have h2 := hj1; simp only [List.length_cons] at h2 ⊢; omega, ?_⟩
            rw [htake', hj1, List.take_length]
            exact startsWithL_refl _

theorem splitKeepGo_tail_start (p₀ : Char) (pr : List Char) (hov : p₀ ∉ pr) :
    ∀ (rest acc : List Char),
      ∀ sec ∈ (splitKeepGo (p₀ :: pr) acc rest).tail,
        startsWithL (p₀ :: pr) sec = true := by
  intro rest
  induction rest with
  | nil =>
    intro acc sec hsec
    simp [splitKeepGo] at hsec
  | cons c rest ih =>
    intro acc sec hsec
    unfold splitKeepGo at hsec
    split at hsec
    · next hcut =>
      rw [List.tail_cons] at hsec
      exact splitKeepGo_all_start p₀ pr hov rest [c] (by simp)
        (splitKeepGo_start_inv_of_cut p₀ pr c rest hcut) sec hsec
    · exact ih (c :: acc) sec hsec

/-- C9: for every FLAT_TEXT document text, the label extraction runs on
exactly the sections produced by splitting at `Tribunal:`: the section
list is the tail of the raw split (the leading piece never contains the
marker and is always dropped), every kept section begins with
`Tribunal:` (one record per marker occurrence: the section count equals
the number of occurrences), and the document text is exactly the
discarded marker-free prefix followed by the kept sections in order. -/
theorem C9_tribunal_split (text : String) :
    parse_text_results text = textSectionsRows (tribunalSections text.data) ∧
    tribunalSections text.data = (splitKeep tribunalPat text.data).tail ∧
    (∀ sec ∈ tribunalSections text.data, startsWithL tribunalPat sec = true) ∧
    (tribunalSections text.data).length = countOcc tribunalPat text.data ∧
    (splitKeep tribunalPat text.data).headI ++ joinL (tribunalSections text.data)
      = text.data ∧
    containsSub tribunalPat (splitKeep tribunalPat text.data).headI = false := by
  have hT : tribunalPat = 'T' :: ("ribunal:").data := by decide
  have hov : 'T' ∉ ("ribunal:").data := by decide
  have hhead : containsSub tribunalPat (splitKeep tribunalPat text.data).headI
      = false := by
    rw [hT]
    exact splitKeepGo_head_not_contains 'T' (("ribunal:").data) text.data []
      (fun j hj => by simp at hj)
  have htaileq : tribunalSections text.data
      = (splitKeep tribunalPat text.data).tail := by
    unfold tribunalSections
    cases hsk : splitKeep tribunalPat text.data with
    | nil => exact absurd hsk (splitKeepGo_ne_nil tribunalPat text.data [])
    | cons first restS =>
      rw [hsk] at hhead
      simp only [List.headI] at hhead
      simp [hhead]
  refine ⟨rfl, htaileq, ?_, ?_, ?_, hhead⟩
  · intro sec hsec
    rw [htaileq] at hsec
    rw [hT] at hsec ⊢
    exact splitKeepGo_tail_start 'T' (("ribunal:").data) hov text.data [] sec hsec
  · rw [htaileq]
    have hlen := splitKeepGo_length tribunalPat text.data []
    cases hsk : splitKeep tribunalPat text.data with
    | nil => exact absurd hsk (splitKeepGo_ne_nil tribunalPat text.data [])
    | cons first restS =>
      unfold splitKeep at hsk
      rw [hsk] at hlen
      simp only [List.length_cons] at hlen
      simp only [List.tail_cons, hsk]
      omega
  · rw [htaileq]
    have hj := splitKeepGo_join tribunalPat text.data []
    cases hsk : splitKeep tribunalPat text.data with
    | nil => exact absurd hsk (splitKeepGo_ne_nil tribunalPat text.data [])
    | cons first restS =>
      unfold splitKeep at hsk
      rw [hsk] at hj
      simp only [joinL, List.reverse_nil, List.nil_append] at hj
      simp only [hsk, List.headI, List.tail_cons]
      exact hj

/-- Witness for C9 at a concrete FLAT_TEXT document with a discarded
preamble and two `Tribunal:` sections. -/
theorem C9_tribunal_split_witness :
    (tribunalSections ("pre Tribunal: A\nTribunal: B\nCredor: X").data).length
      = countOcc tribunalPat ("pre Tribunal: A\nTribunal: B\nCredor: X").data :=
  (C9_tribunal_split "pre Tribunal: A\nTribunal: B\nCredor: X").2.2.2.1

end Citius
